import Mathlib

/-!
Verification of the 3D Print Log Cura plugin
(`PrintLogUploader.py`, `PrintLogSettingsVisibilityHandler.py`)
via a shallow embedding of its data model and operations in Lean 4.

Machine floats that flow through the plugin (bounding-box coordinates,
material lengths) are modelled as rationals; Python strings are modelled
as Lean strings (lists of unicode scalar values).
-/

namespace PrintLog

/-! ### Python string primitives -/

/-- `l.rstrip(c)` on the character list of a Python string:
removes every trailing occurrence of the character `c`. -/
def rstripL (c : Char) (l : List Char) : List Char :=
  (l.reverse.dropWhile (fun x => x = c)).reverse

/-- Python's `str.rstrip(c)` for a single character `c`. -/
def pyRstripChar (c : Char) (s : String) : String :=
  ⟨rstripL c s.data⟩

/-- Python truthiness of a string: non-empty. -/
def pyTruthyStr (s : String) : Bool := s ≠ ""

/-- Python's `str.lower()` (ASCII). -/
def pyLower (s : String) : String := ⟨s.data.map Char.toLower⟩

/-- Python's `str.isspace`: non-empty and every character is whitespace
(ASCII whitespace: space, tab, newline, carriage return, vertical tab, form feed). -/
def pyIsSpace (s : String) : Bool :=
  s ≠ "" && s.data.all (fun c => c ∈ [' ', '\t', '\n', '\r', '\x0b', '\x0c'])

/-! ### Decimal rendering of naturals (Python `str(int)`)

Defined with explicit fuel so that the kernel can evaluate it; the fuel is
then proved irrelevant. -/

/-- Digits of `n` in base 10, least significant first, with fuel. -/
def natDigitsRevFuel : ℕ → ℕ → List Char
  | 0, _ => []
  | fuel + 1, n =>
    if n < 10 then [Nat.digitChar n]
    else Nat.digitChar (n % 10) :: natDigitsRevFuel fuel (n / 10)

/-- Decimal digit characters of `n`, most significant first. -/
def natStr (n : ℕ) : List Char := (natDigitsRevFuel (n + 1) n).reverse

/-- Python's `str` on a non-negative integer. -/
def pyStr (n : ℕ) : String := ⟨natStr n⟩

theorem natDigitsRevFuel_succ (f n : ℕ) :
    natDigitsRevFuel (f + 1) n =
      if n < 10 then [Nat.digitChar n]
      else Nat.digitChar (n % 10) :: natDigitsRevFuel f (n / 10) := rfl

theorem natDigitsRevFuel_irrel (n : ℕ) : ∀ f g : ℕ, n < f → n < g →
    natDigitsRevFuel f n = natDigitsRevFuel g n := by
  induction n using Nat.strong_induction_on with
  | _ n ih =>
    intro f g hf hg
    match f, g with
    | f' + 1, g' + 1 =>
      rw [natDigitsRevFuel_succ, natDigitsRevFuel_succ]
      by_cases h10 : n < 10
      · simp [h10]
      · simp only [h10, if_false]
        have hdiv : n / 10 < n := Nat.div_lt_self (by omega) (by omega)
        rw [ih (n / 10) hdiv f' g' (by omega) (by omega)]

theorem natStr_of_lt_ten {n : ℕ} (h : n < 10) : natStr n = [Nat.digitChar n] := by
  simp [natStr, natDigitsRevFuel_succ, h]

theorem natStr_of_ge_ten {n : ℕ} (h : 10 ≤ n) :
    natStr n = natStr (n / 10) ++ [Nat.digitChar (n % 10)] := by
  have hdiv : n / 10 < n := Nat.div_lt_self (by omega) (by omega)
  rw [natStr, natDigitsRevFuel_succ]
  simp only [Nat.not_lt.mpr h, if_false]
  rw [natDigitsRevFuel_irrel (n / 10) n (n / 10 + 1) (by omega) (by omega)]
  rw [List.reverse_cons]
  rfl

theorem natStr_ne_nil (n : ℕ) : natStr n ≠ [] := by
  by_cases h : n < 10
  · simp [natStr_of_lt_ten h]
  · rw [natStr_of_ge_ten (by omega)]
    simp

theorem digitChar_eq_zero_iff {r : ℕ} (h : r < 10) :
    (Nat.digitChar r = '0') ↔ r = 0 := by
  interval_cases r <;> decide

theorem digitChar_ne_dot {r : ℕ} (h : r < 10) : Nat.digitChar r ≠ '.' := by
  interval_cases r <;> decide

theorem digitChar_inj_of_lt {a b : ℕ} (ha : a < 10) (hb : b < 10)
    (h : Nat.digitChar a = Nat.digitChar b) : a = b := by
  have H : ∀ x y : Fin 10, Nat.digitChar x.val = Nat.digitChar y.val → x = y := by decide
  exact congrArg Fin.val (H ⟨a, ha⟩ ⟨b, hb⟩ h)

/-- `natStr n` always ends in the character of the last decimal digit. -/
theorem natStr_eq_append_last (n : ℕ) :
    ∃ t : List Char, natStr n = t ++ [Nat.digitChar (n % 10)] := by
  by_cases h : n < 10
  · exact ⟨[], by rw [natStr_of_lt_ten h, Nat.mod_eq_of_lt h]; rfl⟩
  · exact ⟨natStr (n / 10), natStr_of_ge_ten (by omega)⟩

theorem natStr_mul_pow_ten {m : ℕ} (hm : 0 < m) (z : ℕ) :
    natStr (m * 10 ^ z) = natStr m ++ List.replicate z '0' := by
  induction z with
  | zero => simp
  | succ z ih =>
    have h1 : m * 10 ^ (z + 1) = m * 10 ^ z * 10 := by ring
    have hpos : 1 ≤ m * 10 ^ z := Nat.one_le_iff_ne_zero.mpr (by positivity)
    have h2 : 10 ≤ m * 10 ^ z * 10 := by omega
    have h3 : m * 10 ^ z * 10 / 10 = m * 10 ^ z := by omega
    have h4 : m * 10 ^ z * 10 % 10 = 0 := by omega
    rw [h1, natStr_of_ge_ten h2, h3, h4, ih,
      show Nat.digitChar 0 = '0' from rfl, List.replicate_succ', ← List.append_assoc]

theorem natStr_length_le {n d : ℕ} (hd : 1 ≤ d) (h : n < 10 ^ d) :
    (natStr n).length ≤ d := by
  induction d generalizing n with
  | zero => omega
  | succ d ih =>
    by_cases h10 : n < 10
    · simp [natStr_of_lt_ten h10]
    · have hd1 : 1 ≤ d := by
        by_contra hc
        have hd0 : d = 0 := by omega
        subst hd0
        rw [pow_one] at h
        omega
      rw [natStr_of_ge_ten (by omega)]
      have hdivlt : n / 10 < 10 ^ d := by
        rw [Nat.div_lt_iff_lt_mul (by omega : 0 < 10)]
        calc n < 10 ^ (d + 1) := h
          _ = 10 ^ d * 10 := pow_succ 10 d
      have := ih hd1 hdivlt
      simp only [List.length_append, List.length_cons, List.length_nil]
      omega

/-- Injectivity of decimal rendering. -/
theorem natStr_injective : Function.Injective natStr := by
  intro m n h
  induction m using Nat.strong_induction_on generalizing n with
  | _ m ih =>
    by_cases hm : m < 10 <;> by_cases hn : n < 10
    · rw [natStr_of_lt_ten hm, natStr_of_lt_ten hn] at h
      exact digitChar_inj_of_lt hm hn (by simpa using h)
    · rw [natStr_of_lt_ten hm, natStr_of_ge_ten (by omega)] at h
      have h1 := congrArg List.length h
      simp only [List.length_append, List.length_cons, List.length_nil] at h1
      have h2 := natStr_ne_nil (n / 10)
      rw [← List.length_pos_iff_ne_nil] at h2
      omega
    · rw [natStr_of_ge_ten (by omega), natStr_of_lt_ten hn] at h
      have h1 := congrArg List.length h
      simp only [List.length_append, List.length_cons, List.length_nil] at h1
      have h2 := natStr_ne_nil (m / 10)
      rw [← List.length_pos_iff_ne_nil] at h2
      omega
    · rw [natStr_of_ge_ten (show (10 : ℕ) ≤ m by omega),
        natStr_of_ge_ten (show (10 : ℕ) ≤ n by omega)] at h
      have htl := List.append_inj_right' h rfl
      have hhd := List.append_inj_left' h rfl
      have hmod : m % 10 = n % 10 :=
        digitChar_inj_of_lt (Nat.mod_lt m (by omega)) (Nat.mod_lt n (by omega))
          (by simpa using htl)
      have hdiv : m / 10 = n / 10 :=
        ih (m / 10) (Nat.div_lt_self (by omega) (by omega)) hhd
      omega

/-! ### rstrip lemmas -/

theorem dropWhile_replicate_append (c : Char) (k : ℕ) (l : List Char) :
    List.dropWhile (fun x => x = c) (List.replicate k c ++ l) =
      List.dropWhile (fun x => x = c) l := by
  induction k with
  | zero => simp
  | succ k ih => simp [List.replicate_succ, List.dropWhile_cons, ih]

theorem rstripL_append_replicate (c : Char) (k : ℕ) (l : List Char) :
    rstripL c (l ++ List.replicate k c) = rstripL c l := by
  unfold rstripL
  rw [List.reverse_append, List.reverse_replicate, dropWhile_replicate_append]

theorem rstripL_concat_ne {a c : Char} (h : a ≠ c) (l : List Char) :
    rstripL c (l ++ [a]) = l ++ [a] := by
  unfold rstripL
  rw [List.reverse_append]
  simp [List.dropWhile_cons, h]

/-! ### `_formatNumber` (PrintLogUploader.py lines 700–705)

`'{:.df}'.format(number)` is modelled as the fixed-point decimal rendering
of the rational `number` with exactly `d` fractional digits, rounding
half-to-even (the rounding mode of Python float formatting), with a leading
minus sign exactly when the number is negative. -/

/-- Rounding half-to-even of a rational to an integer. -/
def roundHalfEven (q : ℚ) : ℤ :=
  let n := ⌊q⌋
  let r := q - n
  if r < 1 / 2 then n
  else if 1 / 2 < r then n + 1
  else if n % 2 = 0 then n else n + 1

/-- Left-pad a digit string with zeros to length `d`. -/
def padZeros (d : ℕ) (l : List Char) : List Char :=
  List.replicate (d - l.length) '0' ++ l

/-- The character list produced by `'{:.df}'.format` for a number whose
rounded scaled magnitude is `m` (so the value is `±m / 10^d`). -/
def renderFixed (neg : Bool) (m : ℕ) (d : ℕ) : List Char :=
  (if neg then ['-'] else []) ++ natStr (m / 10 ^ d) ++
    (if d = 0 then [] else '.' :: padZeros d (natStr (m % 10 ^ d)))

/-- `_formatNumber(number, numberOfDigitsToDisplay)`:
`("{:.%sf}" % d).format(number).rstrip('0').rstrip('.')`, then the
`"-0"` check. -/
def formatNumber (q : ℚ) (d : ℕ) : String :=
  let n := roundHalfEven (q * 10 ^ d)
  let formatted := rstripL '.' (rstripL '0' (renderFixed (decide (q < 0)) n.natAbs d))
  if formatted = ['-', '0'] then "0" else ⟨formatted⟩

/-- Numeric removal of the trailing zeros among the `d` fractional digits of
`m`: returns the reduced magnitude and the number of fractional digits kept. -/
def stripTrailingZeros : ℕ → ℕ → ℕ × ℕ
  | m, 0 => (m, 0)
  | m, d + 1 => if m % 10 = 0 then stripTrailingZeros (m / 10) d else (m, d + 1)

/-- The rendering the claim describes, built numerically rather than by string
stripping: the fixed-point rendering with at most `d` fractional digits, all
trailing zeros after the decimal point removed, no trailing decimal point,
and negative zero normalized to `"0"`. -/
def specFormatNumber (q : ℚ) (d : ℕ) : String :=
  let n := roundHalfEven (q * 10 ^ d)
  let p := stripTrailingZeros n.natAbs d
  if p.1 = 0 then "0"
  else ⟨(if q < 0 then ['-'] else []) ++ natStr (p.1 / 10 ^ p.2) ++
    (if p.2 = 0 then [] else '.' :: padZeros p.2 (natStr (p.1 % 10 ^ p.2)))⟩

theorem stripTrailingZeros_spec (d : ℕ) : ∀ m : ℕ,
    (stripTrailingZeros m d).1 * 10 ^ (d - (stripTrailingZeros m d).2) = m ∧
    (stripTrailingZeros m d).2 ≤ d ∧
    ((stripTrailingZeros m d).2 = 0 ∨ ¬ (10 ∣ (stripTrailingZeros m d).1)) := by
  induction d with
  | zero => intro m; simp [stripTrailingZeros]
  | succ d ih =>
    intro m
    by_cases h : m % 10 = 0
    · have hstep : stripTrailingZeros m (d + 1) = stripTrailingZeros (m / 10) d := by
        simp [stripTrailingZeros, h]
      obtain ⟨h1, h2, h3⟩ := ih (m / 10)
      refine ⟨?_, by rw [hstep]; omega, by rw [hstep]; exact h3⟩
      rw [hstep]
      have hsub : d + 1 - (stripTrailingZeros (m / 10) d).2 =
          (d - (stripTrailingZeros (m / 10) d).2) + 1 := by omega
      rw [hsub, pow_succ, ← Nat.mul_assoc, h1]
      omega
    · have hstep : stripTrailingZeros m (d + 1) = (m, d + 1) := by
        simp [stripTrailingZeros, h]
      rw [hstep]
      refine ⟨by simp, le_refl _, Or.inr ?_⟩
      intro hdvd
      omega

theorem stripTrailingZeros_zero (d : ℕ) : stripTrailingZeros 0 d = (0, 0) := by
  induction d with
  | zero => rfl
  | succ d ih => simp [stripTrailingZeros, ih]

theorem stripTrailingZeros_fst_eq_zero {m d : ℕ}
    (h : (stripTrailingZeros m d).1 = 0) : m = 0 := by
  have := (stripTrailingZeros_spec d m).1
  rw [h] at this
  omega

theorem dash_not_mem_natStr (n : ℕ) : '-' ∉ natStr n := by
  induction n using Nat.strong_induction_on with
  | _ n ih =>
    by_cases h : n < 10
    · rw [natStr_of_lt_ten h]
      interval_cases n <;> decide
    · rw [natStr_of_ge_ten (by omega)]
      intro hmem
      rcases List.mem_append.mp hmem with h1 | h1
      · exact ih (n / 10) (Nat.div_lt_self (by omega) (by omega)) h1
      · have : '-' = Nat.digitChar (n % 10) := by simpa using h1
        have hlt : n % 10 < 10 := Nat.mod_lt n (by omega)
        interval_cases hc : n % 10 <;> exact absurd this (by decide)

theorem natStr_eq_zero_iff {n : ℕ} : natStr n = ['0'] ↔ n = 0 := by
  constructor
  · intro h
    have hz : natStr n = natStr 0 := by rw [h]; rfl
    exact natStr_injective hz
  · intro h; subst h; rfl

theorem replicate_concat_self (d : ℕ) (c : Char) (hd : 1 ≤ d) :
    List.replicate (d - 1) c ++ [c] = List.replicate d c := by
  have : d = (d - 1) + 1 := by omega
  rw [this, List.replicate_succ']
  simp

theorem strip_render_zero (neg : Bool) (d : ℕ) (hd : 1 ≤ d) :
    rstripL '.' (rstripL '0' (renderFixed neg 0 d)) =
      (if neg then ['-'] else []) ++ ['0'] := by
  have hr : renderFixed neg 0 d =
      (((if neg then ['-'] else []) ++ ['0']) ++ ['.']) ++ List.replicate d '0' := by
    have h0 : natStr 0 = ['0'] := rfl
    have hpad : padZeros d ['0'] = List.replicate d '0' := by
      unfold padZeros
      simpa using replicate_concat_self d '0' hd
    simp [renderFixed, Nat.zero_div, Nat.zero_mod, h0, hpad,
      show d ≠ 0 by omega, List.append_assoc]
  rw [hr, rstripL_append_replicate, rstripL_concat_ne (by decide) _,
    show ∀ l : List Char, l ++ ['.'] = l ++ List.replicate 1 '.' from fun l => rfl,
    rstripL_append_replicate, rstripL_concat_ne (by decide) _]

theorem strip_render_intonly (neg : Bool) (m' d : ℕ) (hm' : 0 < m') (hd : 1 ≤ d) :
    rstripL '.' (rstripL '0' (renderFixed neg (m' * 10 ^ d) d)) =
      (if neg then ['-'] else []) ++ natStr m' := by
  obtain ⟨t, ht⟩ := natStr_eq_append_last m'
  have hdiv : m' * 10 ^ d / 10 ^ d = m' := by
    rw [Nat.mul_div_assoc m' (dvd_refl _), Nat.div_self (by positivity), Nat.mul_one]
  have hmod : m' * 10 ^ d % 10 ^ d = 0 := Nat.mul_mod_left _ _
  have hpad : padZeros d ['0'] = List.replicate d '0' := by
    unfold padZeros
    simpa using replicate_concat_self d '0' hd
  have hr : renderFixed neg (m' * 10 ^ d) d =
      (((if neg then ['-'] else []) ++ natStr m') ++ ['.']) ++ List.replicate d '0' := by
    simp [renderFixed, hdiv, hmod, show natStr 0 = ['0'] from rfl, hpad,
      show d ≠ 0 by omega, List.append_assoc]
  rw [hr, rstripL_append_replicate, rstripL_concat_ne (by decide) _,
    show ∀ l : List Char, l ++ ['.'] = l ++ List.replicate 1 '.' from fun l => rfl,
    rstripL_append_replicate]
  have hshape : (if neg then ['-'] else []) ++ natStr m' =
      ((if neg then ['-'] else []) ++ t) ++ [Nat.digitChar (m' % 10)] := by
    rw [ht, List.append_assoc]
  rw [hshape, rstripL_concat_ne (digitChar_ne_dot (Nat.mod_lt m' (by omega))) _]

theorem strip_render_frac (neg : Bool) (m' e v : ℕ) (hm10 : ¬ (10 ∣ m')) (he : 1 ≤ e) :
    rstripL '.' (rstripL '0' (renderFixed neg (m' * 10 ^ v) (e + v))) =
      (if neg then ['-'] else []) ++ natStr (m' / 10 ^ e) ++
        '.' :: padZeros e (natStr (m' % 10 ^ e)) := by
  have hm' : 0 < m' := by
    rcases Nat.eq_zero_or_pos m' with h | h
    · exact absurd (h ▸ dvd_zero 10) hm10
    · exact h
  have hm'10 : m' % 10 ≠ 0 := by omega
  have hpowv : (0 : ℕ) < 10 ^ v := by positivity
  have hpowe : (0 : ℕ) < 10 ^ e := by positivity
  -- the fractional digits of the scaled value
  set fr := m' % 10 ^ e with hfr
  have hfrmod : fr % 10 = m' % 10 := Nat.mod_mod_of_dvd m' (dvd_pow_self 10 (by omega))
  have hfrpos : 0 < fr := by omega
  have hfrlt : fr < 10 ^ e := Nat.mod_lt m' hpowe
  have hfrlen : (natStr fr).length ≤ e := natStr_length_le he hfrlt
  -- integer part of the scaled value
  have hip : m' * 10 ^ v / 10 ^ (e + v) = m' / 10 ^ e := by
    rw [pow_add, Nat.mul_comm (10 ^ e) (10 ^ v), ← Nat.div_div_eq_div_mul,
      Nat.mul_div_assoc m' (dvd_refl _), Nat.div_self hpowv, Nat.mul_one]
  -- fractional part of the scaled value
  have hfrac : m' * 10 ^ v % 10 ^ (e + v) = fr * 10 ^ v := by
    have hsplit : m' = 10 ^ e * (m' / 10 ^ e) + fr := (Nat.div_add_mod m' (10 ^ e)).symm
    have : m' * 10 ^ v = 10 ^ (e + v) * (m' / 10 ^ e) + fr * 10 ^ v := by
      rw [pow_add]
      nlinarith [hsplit]
    rw [this, Nat.mul_add_mod]
    exact Nat.mod_eq_of_lt (by rw [pow_add]; exact (Nat.mul_lt_mul_right hpowv).mpr hfrlt)
  obtain ⟨t, ht⟩ := natStr_eq_append_last fr
  have htlen : (natStr fr).length = t.length + 1 := by rw [ht]; simp
  have hnatfr : natStr (fr * 10 ^ v) = natStr fr ++ List.replicate v '0' :=
    natStr_mul_pow_ten hfrpos v
  have hpadsplit : padZeros (e + v) (natStr (fr * 10 ^ v)) =
      padZeros e (natStr fr) ++ List.replicate v '0' := by
    unfold padZeros
    rw [hnatfr, List.length_append, List.length_replicate,
      show e + v - ((natStr fr).length + v) = e - (natStr fr).length by omega,
      List.append_assoc]
  have hr : renderFixed neg (m' * 10 ^ v) (e + v) =
      ((if neg then ['-'] else []) ++ natStr (m' / 10 ^ e) ++
        '.' :: padZeros e (natStr fr)) ++ List.replicate v '0' := by
    simp [renderFixed, hip, hfrac, hpadsplit, show e + v ≠ 0 by omega, List.append_assoc]
  have hshape : (if neg then ['-'] else []) ++ natStr (m' / 10 ^ e) ++
      '.' :: padZeros e (natStr fr) =
      ((if neg then ['-'] else []) ++ natStr (m' / 10 ^ e) ++
        '.' :: (List.replicate (e - (natStr fr).length) '0' ++ t)) ++
        [Nat.digitChar (fr % 10)] := by
    conv_lhs => rw [ht]
    unfold padZeros
    rw [htlen]
    simp [List.append_assoc, List.length_append]
  have hlast_ne_zero : Nat.digitChar (fr % 10) ≠ '0' := by
    rw [hfrmod]
    intro hc
    exact hm'10 ((digitChar_eq_zero_iff (Nat.mod_lt m' (by omega))).mp hc)
  rw [hr, rstripL_append_replicate, hshape,
    rstripL_concat_ne hlast_ne_zero _,
    rstripL_concat_ne (digitChar_ne_dot (Nat.mod_lt fr (by omega))) _,
    ← hshape]

/-- The stripped rendering equals the numerically reduced rendering, for
at least one fractional digit. -/
theorem strip_renderFixed (neg : Bool) (m d : ℕ) (hd : 1 ≤ d) :
    rstripL '.' (rstripL '0' (renderFixed neg m d)) =
      (if neg then ['-'] else []) ++
        natStr ((stripTrailingZeros m d).1 / 10 ^ (stripTrailingZeros m d).2) ++
        (if (stripTrailingZeros m d).2 = 0 then []
         else '.' :: padZeros (stripTrailingZeros m d).2
           (natStr ((stripTrailingZeros m d).1 % 10 ^ (stripTrailingZeros m d).2))) := by
  by_cases hm : m = 0
  · subst hm
    rw [stripTrailingZeros_zero]
    simpa using strip_render_zero neg d hd
  · obtain ⟨h1, h2, h3⟩ := stripTrailingZeros_spec d m
    have hm' : 0 < (stripTrailingZeros m d).1 := by
      rcases Nat.eq_zero_or_pos (stripTrailingZeros m d).1 with h | h
      · exact absurd (stripTrailingZeros_fst_eq_zero h) hm
      · exact h
    rcases Nat.eq_zero_or_pos (stripTrailingZeros m d).2 with he | he
    · -- all fractional digits were zeros
      have h1' : (stripTrailingZeros m d).1 * 10 ^ d = m := by
        rw [he, Nat.sub_zero] at h1
        exact h1
      have key := strip_render_intonly neg (stripTrailingZeros m d).1 d hm' hd
      rw [h1'] at key
      rw [he, if_pos rfl, List.append_nil, pow_zero, Nat.div_one]
      exact key
    · -- at least one nonzero fractional digit kept
      have h10 : ¬ (10 ∣ (stripTrailingZeros m d).1) := by
        rcases h3 with h3 | h3
        · omega
        · exact h3
      have key := strip_render_frac neg (stripTrailingZeros m d).1
        (stripTrailingZeros m d).2 (d - (stripTrailingZeros m d).2) h10 he
      rw [show (stripTrailingZeros m d).2 + (d - (stripTrailingZeros m d).2) = d by omega,
        h1] at key
      rw [if_neg (show ¬(stripTrailingZeros m d).2 = 0 by omega)]
      exact key

/-- C8 (amended): for every number and every digit count `d ≥ 1`,
`_formatNumber` returns the fixed-point rendering with at most `d` fractional
digits, all trailing zeros after the decimal point removed, no trailing
decimal point, and negative zero normalized to `"0"` — stated as equality
with the numerically-reduced rendering `specFormatNumber`.  (For `d = 0` the
claim fails, see the counterexample.) -/
theorem formatNumber_eq_specFormatNumber (q : ℚ) (d : ℕ) (hd : 1 ≤ d) :
    formatNumber q d = specFormatNumber q d := by
  simp only [formatNumber, specFormatNumber]
  rw [strip_renderFixed _ _ _ hd]
  have hdec : (if decide (q < 0) = true then ['-'] else ([] : List Char)) =
      (if q < 0 then ['-'] else []) := by
    by_cases hq : q < 0 <;> simp [hq]
  rw [hdec]
  set N := (roundHalfEven (q * 10 ^ d)).natAbs with hN
  by_cases hm : N = 0
  · rw [hm, stripTrailingZeros_zero]
    by_cases hq : q < 0 <;>
      simp [hq, show natStr (0 / 10 ^ 0) = ['0'] from rfl] <;> decide
  · have hm' : (stripTrailingZeros N d).1 ≠ 0 := fun h => hm (stripTrailingZeros_fst_eq_zero h)
    have hne : ((if q < 0 then ['-'] else []) ++
        natStr ((stripTrailingZeros N d).1 / 10 ^ (stripTrailingZeros N d).2) ++
        (if (stripTrailingZeros N d).2 = 0 then []
         else '.' :: padZeros (stripTrailingZeros N d).2
           (natStr ((stripTrailingZeros N d).1 % 10 ^ (stripTrailingZeros N d).2)))) ≠
        ['-', '0'] := by
      rcases Nat.eq_zero_or_pos (stripTrailingZeros N d).2 with he | he
      · rw [he, if_pos rfl, List.append_nil, pow_zero, Nat.div_one]
        by_cases hq : q < 0
        · rw [if_pos hq]
          intro hcontra
          have : natStr (stripTrailingZeros N d).1 = ['0'] := by
            have := List.cons.injEq '-' (natStr (stripTrailingZeros N d).1) '-' ['0'] ▸ hcontra
            simpa using hcontra
          exact hm' (natStr_eq_zero_iff.mp this)
        · rw [if_neg hq, List.nil_append]
          intro hcontra
          have : '-' ∈ natStr (stripTrailingZeros N d).1 := by
            rw [hcontra]; simp
          exact dash_not_mem_natStr _ this
      · rw [if_neg (show ¬(stripTrailingZeros N d).2 = 0 by omega)]
        intro hcontra
        have hdot : '.' ∈ ((if q < 0 then ['-'] else []) ++
            natStr ((stripTrailingZeros N d).1 / 10 ^ (stripTrailingZeros N d).2) ++
            '.' :: padZeros (stripTrailingZeros N d).2
              (natStr ((stripTrailingZeros N d).1 % 10 ^ (stripTrailingZeros N d).2))) := by
          simp
        rw [hcontra] at hdot
        exact absurd hdot (by decide)
    rw [if_neg hne, if_neg hm']

/-- Witness for C8 at the input `(5/4, 2)`. -/
theorem formatNumber_eq_specFormatNumber_witness :
    formatNumber (5 / 4) 2 = specFormatNumber (5 / 4) 2 :=
  formatNumber_eq_specFormatNumber (5 / 4) 2 (by decide)

/-- C8 counterexample input: `_formatNumber(100, 0)`.  With zero requested
fractional digits the formatted string contains no decimal point, yet
`.rstrip('0')` still strips the integer's trailing zeros, so the code
returns `"1"` where the claim requires the fixed-point rendering `"100"`. -/
theorem formatNumber_c8_counterexample :
    formatNumber 100 0 = "1" ∧ specFormatNumber 100 0 = "100" ∧
      ("1" : String) ≠ "100" := by
  have hr : roundHalfEven ((100 : ℚ) * 10 ^ 0) = 100 := by
    simp only [roundHalfEven]
    norm_num
  have hq : ¬((100 : ℚ) < 0) := by norm_num
  refine ⟨?_, ?_, by decide⟩
  · simp only [formatNumber, hr, decide_eq_false hq]
    decide
  · simp only [specFormatNumber, hr]
    decide

/-! ### `PrintLogSettingsVisibilityHandler.py` -/

/-- The preference key holding the logged settings. -/
def loggedSettingsPref : String := "3d_print_log/logged_settings"

/-- `s.split(";")` on character lists, with accumulator. -/
def pySplitSemiAux : List Char → List Char → List (List Char)
  | [], acc => [acc.reverse]
  | c :: rest, acc =>
    if c = ';' then acc.reverse :: pySplitSemiAux rest []
    else pySplitSemiAux rest (c :: acc)

/-- Python's `s.split(";")`. -/
def pySplitSemi (s : String) : List String :=
  (pySplitSemiAux s.data []).map (⟨·⟩)

/-- `";".join` on character lists. -/
def joinSemiL : List (List Char) → List Char
  | [] => []
  | [w] => w
  | w :: ws => w ++ ';' :: joinSemiL ws

/-- Python's `";".join(visible)`, where the visible set is enumerated by a
list (Python sets iterate in unspecified order). -/
def pyJoinSemi (l : List String) : String := ⟨joinSemiL (l.map String.data)⟩

/-- Outcome of `_onPreferencesChanged`. -/
inductive PrefAction where
  | reset
  | setVisible (s : Finset String)
  | keep
  deriving DecidableEq

/-- `_onPreferencesChanged(name)`: reacts to a change of the stored
preference string, given the currently visible set. -/
def onPreferencesChanged (name stored : String) (currentVisible : Finset String) :
    PrefAction :=
  if name ≠ loggedSettingsPref then .keep
  else if ¬ pyTruthyStr stored then .reset
  else
    let ms := (pySplitSemi stored).toFinset
    if ms ≠ currentVisible then .setVisible ms else .keep

/-- `_updatePreference`: writes the visible set (enumerated as a list)
joined with `";"`. -/
def updatePreference (visible : List String) : String := pyJoinSemi visible

/-- `setSettingVisibility(key, visible)`: inserts or removes a key; the
`try/except KeyError` around `set.remove` makes removal of an absent key a
no-op, which `Finset.erase` models. -/
def setSettingVisibility (visible : Finset String) (key : String) (vis : Bool) :
    Finset String :=
  if vis then insert key visible else visible.erase key

theorem String_mk_data (s : String) : String.mk s.data = s := rfl

theorem pySplitSemiAux_consume {w : List Char} (hw : ';' ∉ w) :
    ∀ (r acc : List Char),
      pySplitSemiAux (w ++ r) acc = pySplitSemiAux r (w.reverse ++ acc) := by
  induction w with
  | nil => intro r acc; simp
  | cons c w ih =>
    intro r acc
    have hc : c ≠ ';' := fun h => hw (h ▸ List.mem_cons_self c w)
    have hw' : ';' ∉ w := fun h => hw (List.mem_cons_of_mem c h)
    have hstep : pySplitSemiAux ((c :: w) ++ r) acc = pySplitSemiAux (w ++ r) (c :: acc) := by
      simp [pySplitSemiAux, hc]
    rw [hstep, ih hw' r (c :: acc)]
    simp [List.reverse_cons, List.append_assoc]

theorem joinSemiL_split (ws : List (List Char)) (hne : ws ≠ [])
    (hsc : ∀ w ∈ ws, ';' ∉ w) :
    pySplitSemiAux (joinSemiL ws) [] = ws := by
  induction ws with
  | nil => exact absurd rfl hne
  | cons w ws ih =>
    cases ws with
    | nil =>
      have hw : ';' ∉ w := hsc w (List.mem_cons_self w [])
      have := pySplitSemiAux_consume hw [] []
      simp only [List.append_nil] at this
      simp [joinSemiL, this, pySplitSemiAux]
    | cons w' ws' =>
      have hw : ';' ∉ w := hsc w (List.mem_cons_self _ _)
      have hrest : ∀ x ∈ w' :: ws', ';' ∉ x := fun x hx =>
        hsc x (List.mem_cons_of_mem w hx)
      have hjoin : joinSemiL (w :: w' :: ws') = w ++ ';' :: joinSemiL (w' :: ws') := rfl
      rw [hjoin, pySplitSemiAux_consume hw _ [], List.append_nil]
      have hsemi : pySplitSemiAux (';' :: joinSemiL (w' :: ws')) w.reverse =
          w :: pySplitSemiAux (joinSemiL (w' :: ws')) [] := by
        simp [pySplitSemiAux]
      rw [hsemi, ih (by simp) hrest]

theorem pySplitSemi_pyJoinSemi (l : List String) (hne : l ≠ [])
    (hsc : ∀ s ∈ l, ';' ∉ s.data) :
    pySplitSemi (pyJoinSemi l) = l := by
  have hmap : (l.map String.data) ≠ [] := by
    intro h
    exact hne (List.map_eq_nil_iff.mp h)
  have hsc' : ∀ w ∈ l.map String.data, ';' ∉ w := by
    intro w hw
    obtain ⟨s, hs, rfl⟩ := List.mem_map.mp hw
    exact hsc s hs
  unfold pySplitSemi pyJoinSemi
  rw [show (String.mk (joinSemiL (l.map String.data))).data = joinSemiL (l.map String.data)
      from rfl,
    joinSemiL_split _ hmap hsc', List.map_map]
  have hfun : ((fun x : List Char => (⟨x⟩ : String)) ∘ String.data) = id :=
    funext fun s => rfl
  rw [hfun, List.map_id]

/-- `";".join` of a non-empty list of non-empty words is non-empty. -/
theorem pyJoinSemi_truthy (l : List String) (hne : l ≠ [])
    (hnb : ∀ s ∈ l, s ≠ "") : pyTruthyStr (pyJoinSemi l) = true := by
  cases l with
  | nil => exact absurd rfl hne
  | cons w ws =>
    cases ws with
    | nil =>
      have hw := hnb w (List.mem_cons_self _ _)
      simp only [pyTruthyStr, pyJoinSemi, List.map, joinSemiL]
      exact decide_eq_true hw
    | cons w' ws' =>
      simp only [pyTruthyStr, pyJoinSemi, List.map, joinSemiL]
      rw [decide_eq_true_iff]
      intro h
      have h2 : w.data ++ ';' :: joinSemiL (w'.data :: List.map String.data ws') =
          ([] : List Char) := congrArg String.data h
      simp at h2

/-- C6 (amended): for every non-empty set of non-empty setting names
containing no `';'` character (enumerated by any list), writing the set via
`_updatePreference` and reading it back via `_onPreferencesChanged` yields the
same set (a `setVisible` of that set when it differs from the current visible
set, no change when it is already current); and when the stored preference
string is empty, `_onPreferencesChanged` resets the preference to its default
instead of setting an empty visible set. -/
theorem loggedSettings_roundtrip (l : List String) (cur : Finset String)
    (hne : l ≠ []) (hgood : ∀ s ∈ l, ';' ∉ s.data ∧ s ≠ "") :
    (onPreferencesChanged loggedSettingsPref (updatePreference l) cur =
      if l.toFinset ≠ cur then PrefAction.setVisible l.toFinset else .keep) ∧
    onPreferencesChanged loggedSettingsPref "" cur = .reset := by
  constructor
  · unfold onPreferencesChanged updatePreference
    rw [if_neg (by simp)]
    rw [if_neg (by simp [pyJoinSemi_truthy l hne (fun s hs => (hgood s hs).2)])]
    rw [pySplitSemi_pyJoinSemi l hne (fun s hs => (hgood s hs).1)]
  · unfold onPreferencesChanged
    rw [if_neg (by simp)]
    rw [if_pos (by simp [pyTruthyStr])]

/-- Witness for C6 at the set `{"layer_height"}` and empty current set. -/
theorem loggedSettings_roundtrip_witness :
    (onPreferencesChanged loggedSettingsPref (updatePreference ["layer_height"]) ∅ =
      if (["layer_height"] : List String).toFinset ≠ (∅ : Finset String)
      then PrefAction.setVisible (["layer_height"] : List String).toFinset
      else .keep) ∧
    onPreferencesChanged loggedSettingsPref "" (∅ : Finset String) = .reset :=
  loggedSettings_roundtrip ["layer_height"] ∅ (by decide) (by decide)

/-- C6 counterexample: the singleton set containing the empty string is a
non-empty set whose sole name contains no `';'`, yet `_updatePreference`
stores it as the empty string, which `_onPreferencesChanged` treats as
"no value" and resets to the default — the set `{""}` does not round-trip. -/
theorem loggedSettings_c6_counterexample :
    updatePreference [""] = "" ∧
    onPreferencesChanged loggedSettingsPref (updatePreference [""]) {""} =
      PrefAction.reset ∧
    PrefAction.reset ≠ PrefAction.keep := by
  refine ⟨rfl, ?_, by decide⟩
  rw [show updatePreference [""] = "" from rfl]
  unfold onPreferencesChanged
  rw [if_neg (by simp)]
  rw [if_pos (by simp [pyTruthyStr])]

/-- C9: `setSettingVisibility` never raises (hiding an absent key is a
no-op thanks to the `try/except KeyError`), and it is idempotent in both
directions. -/
theorem setSettingVisibility_props (s : Finset String) (key : String) :
    (key ∉ s → setSettingVisibility s key false = s) ∧
    setSettingVisibility (setSettingVisibility s key true) key true =
      setSettingVisibility s key true ∧
    setSettingVisibility (setSettingVisibility s key false) key false =
      setSettingVisibility s key false := by
  refine ⟨fun h => ?_, ?_, ?_⟩
  · simp [setSettingVisibility, Finset.erase_eq_of_not_mem h]
  · simp [setSettingVisibility, Finset.insert_idem]
  · simp [setSettingVisibility, Finset.erase_idem]

/-- Witness for C9 at the set `{"a"}` and the absent key `"b"`. -/
theorem setSettingVisibility_props_witness :
    setSettingVisibility ({"a"} : Finset String) "b" false = {"a"} :=
  (setSettingVisibility_props {"a"} "b").1 (by decide)

/-! ### `_buildSettingRow` (PrintLogUploader.py lines 611–672) -/

/-- Lexicographic (code-point) string comparison, Python's `str <= str`. -/
def pyStrLeL : List Char → List Char → Bool
  | [], _ => true
  | _ :: _, [] => false
  | a :: as, b :: bs => if a = b then pyStrLeL as bs else decide (a.toNat < b.toNat)

theorem pyStrLeL_total : ∀ a b : List Char, pyStrLeL a b = true ∨ pyStrLeL b a = true
  | [], _ => Or.inl rfl
  | _ :: _, [] => Or.inr rfl
  | a :: as, b :: bs => by
    by_cases hab : a = b
    · subst hab
      simpa [pyStrLeL] using pyStrLeL_total as bs
    · have hne : a.toNat ≠ b.toNat := fun h => hab (Char.ext (UInt32.toNat.inj h))
      rcases Nat.lt_or_ge a.toNat b.toNat with h | h
      · exact Or.inl (by simp [pyStrLeL, hab, h])
      · have hlt : b.toNat < a.toNat := by omega
        exact Or.inr (by simp [pyStrLeL, Ne.symm hab, hlt])

theorem pyStrLeL_trans : ∀ a b c : List Char,
    pyStrLeL a b = true → pyStrLeL b c = true → pyStrLeL a c = true
  | [], _, _, _, _ => rfl
  | a :: as, [], c, h, _ => by simp [pyStrLeL] at h
  | a :: as, b :: bs, [], _, h => by simp [pyStrLeL] at h
  | a :: as, b :: bs, c :: cs, h1, h2 => by
    by_cases hab : a = b <;> by_cases hbc : b = c
    · subst hab; subst hbc
      simp only [pyStrLeL, if_pos rfl] at h1 h2 ⊢
      exact pyStrLeL_trans as bs cs h1 h2
    · subst hab
      simp only [pyStrLeL, if_pos rfl, if_neg hbc] at h1 h2 ⊢
      exact h2
    · subst hbc
      simp only [pyStrLeL, if_neg hab] at h1 ⊢
      exact h1
    · simp only [pyStrLeL, if_neg hab, if_neg hbc, decide_eq_true_iff] at h1 h2
      have hac : a.toNat ≠ c.toNat := by omega
      have : a ≠ c := fun h => hac (by rw [h])
      simp only [pyStrLeL, if_neg this, decide_eq_true_iff]
      omega

/-- Per-extruder data read by `_buildSettingRow` for a fixed setting:
the extruder's integer `position` metadata (Cura stores its decimal string),
`str(extruder.getProperty(setting_name, "value"))`, and
`extruder.getProperty(setting_name, "unit")` (`none` for Python `None`). -/
structure Extruder where
  position : ℕ
  value : String
  unit : Option String

/-- The sort key `extruder.getMetaDataEntry("position")`: the decimal string
of the position. -/
def posKey (e : Extruder) : String := pyStr e.position

/-- The `OrderedDict` key `"Ex " + str(extruder_position + 1)`. -/
def rowKey (e : Extruder) : String := "Ex " ++ pyStr (e.position + 1)

/-- `str(value)` plus the unit suffix: degree and percent units attach
without a space, other non-blank units with a space
(`if unit and not str(unit).isspace()`). -/
def rowItem (e : Extruder) : String :=
  match e.unit with
  | none => e.value
  | some u =>
    if pyTruthyStr u && !(pyIsSpace u) then
      if u = "°C" ∨ u = "°F" ∨ u = "%" then e.value ++ u
      else e.value ++ " " ++ u
    else e.value

/-- An extruder at `pos` "used filament": `len(materialLengths) > pos`, the
entry is not `None`, and it is `> 0`. -/
def usedFilament (materialLengths : List (Option ℚ)) (pos : ℕ) : Bool :=
  match materialLengths.get? pos with
  | some (some q) => decide (0 < q)
  | some none => false
  | none => false

/-- The comparison Python's stable `sorted(..., key=position-string)` uses. -/
def extruderLE (a b : Extruder) : Prop :=
  pyStrLeL (posKey a).data (posKey b).data = true

instance : DecidableRel extruderLE := fun a b =>
  inferInstanceAs (Decidable (_ = true))

instance : IsTotal Extruder extruderLE :=
  ⟨fun a b => pyStrLeL_total (posKey a).data (posKey b).data⟩

instance : IsTrans Extruder extruderLE :=
  ⟨fun a b c => pyStrLeL_trans (posKey a).data (posKey b).data (posKey c).data⟩

/-- `OrderedDict` assignment `d[k] = v`: replaces in place if the key is
present, appends otherwise. -/
def odUpsert (k v : String) : List (String × String) → List (String × String)
  | [] => [(k, v)]
  | p :: rest => if p.1 = k then (k, v) :: rest else p :: odUpsert k v rest

/-- `_buildSettingRow(setting_name)`, given the label
`global_stack.getProperty(setting_name, "label")`, the machine's extruders
and `print_information.materialLengths`. -/
def buildSettingRow (label : String) (extruders : List Extruder)
    (materialLengths : List (Option ℚ)) : String :=
  let sorted := List.insertionSort extruderLE extruders
  let settingValues := sorted.foldl (fun acc e =>
    if usedFilament materialLengths e.position then
      odUpsert (rowKey e) (rowItem e) acc
    else acc) []
  if (settingValues.map Prod.snd).dedup.length = 1 then
    label ++ ": " ++ (settingValues.map Prod.snd).headD ""
  else
    (settingValues.foldl
      (fun (p : String × Bool) kv =>
        (p.1 ++ (if p.2 then "" else ", ") ++ kv.2 ++ " (" ++ kv.1 ++ ")", false))
      (label ++ ": ", true)).1

/-- Concatenation of a list of strings. -/
def strJoin : List String → String
  | [] => ""
  | x :: xs => x ++ strJoin xs

/-- `", "`-separated join, as in the claim's per-extruder form. -/
def commaJoin : List String → String
  | [] => ""
  | x :: xs => x ++ strJoin (xs.map (fun y => ", " ++ y))

/-- The form the (amended) claim describes: consider the extruders that used
filament, in the order of the stable sort by position string; when there is
at least one and all their value strings agree, the compact form, otherwise
the per-extruder form. -/
def settingRowSpec (label : String) (extruders : List Extruder)
    (materialLengths : List (Option ℚ)) : String :=
  let used := (List.insertionSort extruderLE extruders).filter
    (fun e => usedFilament materialLengths e.position)
  let vals := used.map rowItem
  if vals ≠ [] ∧ ∀ v ∈ vals, v = vals.headD "" then
    label ++ ": " ++ vals.headD ""
  else
    label ++ ": " ++ commaJoin (used.map (fun e => rowItem e ++ " (" ++ rowKey e ++ ")"))

theorem strData_append (a b : String) : (a ++ b).data = a.data ++ b.data := by
  cases a; cases b; rfl

theorem strAppend_assoc (a b c : String) : a ++ b ++ c = a ++ (b ++ c) := by
  cases a; cases b; cases c
  exact congrArg String.mk (List.append_assoc _ _ _)

theorem strAppend_empty (s : String) : s ++ "" = s := by
  cases s
  exact congrArg String.mk (List.append_nil _)

theorem odUpsert_of_fresh {k : String} (v : String) :
    ∀ l : List (String × String), (∀ p ∈ l, p.1 ≠ k) →
      odUpsert k v l = l ++ [(k, v)]
  | [], _ => rfl
  | p :: rest, h => by
    have hp : p.1 ≠ k := h p (List.mem_cons_self _ _)
    simp only [odUpsert, if_neg hp, List.cons_append]
    rw [odUpsert_of_fresh v rest (fun q hq => h q (List.mem_cons_of_mem _ hq))]

/-- The `OrderedDict`-building loop equals append-in-order when all row keys
are distinct. -/
theorem foldl_upsert_eq_map (ml : List (Option ℚ)) :
    ∀ (l : List Extruder) (acc : List (String × String)),
      (∀ e ∈ l, usedFilament ml e.position = true → ∀ p ∈ acc, p.1 ≠ rowKey e) →
      ((l.filter (fun e => usedFilament ml e.position)).map rowKey).Nodup →
      (l.foldl (fun acc e =>
        if usedFilament ml e.position then odUpsert (rowKey e) (rowItem e) acc
        else acc) acc) =
        acc ++ (l.filter (fun e => usedFilament ml e.position)).map
          (fun e => (rowKey e, rowItem e))
  | [], acc, _, _ => by simp
  | e :: l, acc, hacc, hnodup => by
    by_cases hu : usedFilament ml e.position = true
    · have hfresh : ∀ p ∈ acc, p.1 ≠ rowKey e := hacc e (List.mem_cons_self _ _) hu
      have hfilter : (e :: l).filter (fun e => usedFilament ml e.position) =
          e :: l.filter (fun e => usedFilament ml e.position) := by
        simp [List.filter_cons, hu]
      rw [hfilter] at hnodup
      simp only [List.map_cons, List.nodup_cons] at hnodup
      have hacc' : ∀ e' ∈ l, usedFilament ml e'.position = true →
          ∀ p ∈ acc ++ [(rowKey e, rowItem e)], p.1 ≠ rowKey e' := by
        intro e' he' hu' p hp
        rcases List.mem_append.mp hp with hp | hp
        · exact hacc e' (List.mem_cons_of_mem _ he') hu' p hp
        · have hpe : p = (rowKey e, rowItem e) := by simpa using hp
          subst hpe
          intro hck
          apply hnodup.1
          rw [show (rowKey e, rowItem e).1 = rowKey e from rfl] at hck
          rw [hck]
          exact List.mem_map_of_mem rowKey (List.mem_filter.mpr ⟨he', hu'⟩)
      have := foldl_upsert_eq_map ml l (acc ++ [(rowKey e, rowItem e)]) hacc' hnodup.2
      simp only [List.foldl_cons, if_pos hu,
        odUpsert_of_fresh (rowItem e) acc hfresh, this, hfilter,
        List.map_cons, List.append_assoc, List.singleton_append]
    · have hfilter : (e :: l).filter (fun e => usedFilament ml e.position) =
          l.filter (fun e => usedFilament ml e.position) := by
        simp [List.filter_cons, hu]
      rw [hfilter] at hnodup
      have := foldl_upsert_eq_map ml l acc
        (fun e' he' => hacc e' (List.mem_cons_of_mem _ he')) hnodup
      simp only [List.foldl_cons, if_neg hu, this, hfilter]

theorem pyStr_injective : Function.Injective pyStr := by
  intro a b h
  exact natStr_injective (congrArg String.data h)

theorem rowKeyNat_injective :
    Function.Injective (fun p : ℕ => "Ex " ++ pyStr (p + 1)) := by
  intro a b h
  have hd := congrArg String.data h
  rw [strData_append, strData_append] at hd
  have := List.append_cancel_left hd
  have hn := natStr_injective this
  omega

/-- Distinct positions give distinct `OrderedDict` keys on the sorted,
filtered extruder list. -/
theorem rowKeys_nodup (extruders : List Extruder) (ml : List (Option ℚ))
    (hpos : (extruders.map Extruder.position).Nodup) :
    (((List.insertionSort extruderLE extruders).filter
      (fun e => usedFilament ml e.position)).map rowKey).Nodup := by
  have hperm : List.Perm (List.insertionSort extruderLE extruders) extruders :=
    List.perm_insertionSort _ _
  have h1 : ((List.insertionSort extruderLE extruders).map Extruder.position).Nodup :=
    ((hperm.map Extruder.position).nodup_iff).mpr hpos
  have h2 : (((List.insertionSort extruderLE extruders).filter
      (fun e => usedFilament ml e.position)).map Extruder.position).Nodup :=
    h1.sublist ((List.filter_sublist _).map Extruder.position)
  have hkey : rowKey = (fun p : ℕ => "Ex " ++ pyStr (p + 1)) ∘ Extruder.position := rfl
  rw [hkey, ← List.map_map]
  exact h2.map rowKeyNat_injective

/-- `len(set(values)) == 1` says exactly: the value list is non-empty and
all its entries equal the first. -/
theorem dedup_length_eq_one_iff (l : List String) :
    l.dedup.length = 1 ↔ (l ≠ [] ∧ ∀ v ∈ l, v = l.headD "") := by
  constructor
  · intro h
    obtain ⟨a, ha⟩ := List.length_eq_one.mp h
    have hmem : ∀ x ∈ l, x = a := by
      intro x hx
      have hxd : x ∈ l.dedup := List.mem_dedup.mpr hx
      rw [ha] at hxd
      simpa using hxd
    have hl : l ≠ [] := by
      intro hnil
      rw [hnil] at ha
      simp at ha
    refine ⟨hl, fun v hv => ?_⟩
    rw [hmem v hv]
    cases l with
    | nil => exact absurd rfl hl
    | cons x t => exact (hmem x (List.mem_cons_self _ _)).symm
  · rintro ⟨hl, hall⟩
    cases l with
    | nil => exact absurd rfl hl
    | cons x t =>
      have hx : ∀ v ∈ x :: t, v = x := by
        intro v hv
        simpa using hall v hv
      have hrep : x :: t = List.replicate (x :: t).length x :=
        List.eq_replicate_of_mem hx
      rw [hrep]
      have : ∀ n : ℕ, (List.replicate (n + 1) x).dedup = [x] := by
        intro n
        induction n with
        | zero => simp
        | succ n ih =>
          rw [List.replicate_succ, List.dedup_cons_of_mem
            (by simp [List.mem_replicate]), ih]
      rw [show (x :: t).length = t.length + 1 from rfl, this t.length]
      rfl

theorem foldl_first_aux (l : List (String × String)) : ∀ pre : String,
    (l.foldl
      (fun (p : String × Bool) kv =>
        (p.1 ++ (if p.2 then "" else ", ") ++ kv.2 ++ " (" ++ kv.1 ++ ")", false))
      (pre, false)).1 =
      pre ++ strJoin (l.map (fun kv => ", " ++ (kv.2 ++ " (" ++ kv.1 ++ ")"))) := by
  induction l with
  | nil => intro pre; simp [strJoin, strAppend_empty]
  | cons kv l ih =>
    intro pre
    simp only [List.foldl_cons, if_neg (Bool.false_ne_true), List.map_cons]
    rw [ih]
    simp [strJoin, strAppend_assoc]

theorem foldl_first (l : List (String × String)) (pre : String) :
    (l.foldl
      (fun (p : String × Bool) kv =>
        (p.1 ++ (if p.2 then "" else ", ") ++ kv.2 ++ " (" ++ kv.1 ++ ")", false))
      (pre, true)).1 =
      pre ++ commaJoin (l.map (fun kv => kv.2 ++ " (" ++ kv.1 ++ ")")) := by
  cases l with
  | nil => simp [commaJoin, strAppend_empty]
  | cons kv l =>
    simp only [List.foldl_cons, if_pos rfl, List.map_cons]
    rw [foldl_first_aux]
    simp only [commaJoin, List.map_map]
    simp only [strAppend_assoc, strAppend_empty]
    rfl

/-- C1 (amended): with pairwise-distinct extruder positions,
`_buildSettingRow` returns the compact form `"<label>: <value>"` exactly when
at least one extruder used filament and all the per-extruder value strings
(unit included) of the extruders that used filament agree, and otherwise the
per-extruder form `"<label>: <v1> (Ex i1), <v2> (Ex i2), ..."`; the extruders
are listed in the order of the stable sort by the *decimal-string* form of
their position (which is ascending numeric order only while the strings
compare like the numbers, e.g. all positions below 10); with no used extruder
the per-extruder form degenerates to `"<label>: "`. -/
theorem buildSettingRow_eq_settingRowSpec (label : String) (extruders : List Extruder)
    (ml : List (Option ℚ)) (hpos : (extruders.map Extruder.position).Nodup) :
    buildSettingRow label extruders ml = settingRowSpec label extruders ml ∧
    List.Sorted extruderLE (List.insertionSort extruderLE extruders) := by
  refine ⟨?_, List.sorted_insertionSort _ _⟩
  have hfold := foldl_upsert_eq_map ml (List.insertionSort extruderLE extruders) []
    (by intro e he hu p hp; simp at hp) (rowKeys_nodup extruders ml hpos)
  simp only [List.nil_append] at hfold
  simp only [buildSettingRow, settingRowSpec]
  rw [hfold, List.map_map]
  have hsnd : (Prod.snd ∘ fun e : Extruder => (rowKey e, rowItem e)) = rowItem := rfl
  rw [hsnd]
  refine if_congr (dedup_length_eq_one_iff _) rfl ?_
  rw [foldl_first, List.map_map]
  rfl

/-- Witness for C1 at two extruders that disagree on the value. -/
theorem buildSettingRow_eq_settingRowSpec_witness :
    buildSettingRow "Layer Height" [⟨0, "0.2", some "mm"⟩, ⟨1, "0.3", some "mm"⟩]
        [some 1, some 1] =
      settingRowSpec "Layer Height" [⟨0, "0.2", some "mm"⟩, ⟨1, "0.3", some "mm"⟩]
        [some 1, some 1] ∧
    List.Sorted extruderLE (List.insertionSort extruderLE
      [⟨0, "0.2", some "mm"⟩, ⟨1, "0.3", some "mm"⟩]) :=
  buildSettingRow_eq_settingRowSpec "Layer Height" _ _ (by decide)

/-- C1 counterexample: extruders at positions 2 and 10, both having used
filament with differing values.  Python sorts by the *string* metadata entry,
and `"10" < "2"` lexicographically, so the output lists Ex 11 before Ex 3 —
not the ascending extruder-position order the claim states. -/
theorem buildSettingRow_c1_counterexample :
    buildSettingRow "L" [⟨2, "a", none⟩, ⟨10, "b", none⟩]
        [none, none, some 1, none, none, none, none, none, none, none, some 1] =
      "L: b (Ex 11), a (Ex 3)" ∧
    ("L: b (Ex 11), a (Ex 3)" : String) ≠ "L: a (Ex 3), b (Ex 11)" := by
  exact ⟨by decide, by decide⟩

/-! ### `_generateNotes` settings section (PrintLogUploader.py lines 575–609)

The setting-definitions model is abstracted as the ordered list of row keys
`items`, with `global_stack.getProperty(item, "type")` and `"label")` given
by the functions `propType` and `propLabel`, `_buildSettingRow` by `row`, and
the parsed `logged_settings` set by the list `logged`.  The `data` dictionary
built alongside `notes` is dead code (it is never returned or read), so only
the emptiness of `categoryData` matters; it is modelled faithfully as the
`OrderedDict` association list. -/

section GenerateNotes

variable (propType propLabel row : String → String) (logged : List String)

/-- One iteration of the `_generateNotes` row loop, acting on the state
`(notes, currentCategory, categoryString, categoryData)`. -/
def notesStep (st : String × Option String × String × List (String × String))
    (item : String) : String × Option String × String × List (String × String) :=
  let notes := st.1
  let cur := st.2.1
  let cs := st.2.2.1
  let cd := st.2.2.2
  if pyLower (propType item) = "category" then
    match cur with
    | none => (notes, some (propLabel item), propLabel item ++ "\n", cd)
    | some _ =>
      (if cd ≠ [] then notes ++ cs else notes, some (propLabel item),
        propLabel item ++ "\n", [])
  else if item ∈ logged then
    (notes, cur, cs ++ "  " ++ row item ++ "\n", odUpsert item (row item) cd)
  else (notes, cur, cs, cd)

/-- The final `if len(categoryData) > 0: notes += categoryString`. -/
def settingsFlush (st : String × Option String × String × List (String × String)) :
    String :=
  if st.2.2.2 ≠ [] then st.1 ++ st.2.2.1 else st.1

/-- The settings section of `_generateNotes`: the row loop from the empty
state followed by the final flush. -/
def settingsNotes (items : List String) : String :=
  settingsFlush
    (items.foldl (notesStep propType propLabel row logged) ("", none, "", []))

/-- The category block for label `c` with logged rows `ks`. -/
def mkCs (c : String) (ks : List String) : String :=
  c ++ "\n" ++ strJoin (ks.map (fun k => "  " ++ row k ++ "\n"))

/-- Scan after an open category `label` with already-collected logged keys
`acc`: yields the `(category label, logged keys in model order)` segments. -/
def segsAux (label : String) (acc : List String) :
    List String → List (String × List String)
  | [] => [(label, acc)]
  | j :: rest =>
    if pyLower (propType j) = "category" then
      (label, acc) :: segsAux (propLabel j) [] rest
    else if j ∈ logged then segsAux label (acc ++ [j]) rest
    else segsAux label acc rest

/-- The segments of the model rows: one per category, holding the logged
settings that follow it (before the next category). -/
def segments : List String → List (String × List String)
  | [] => []
  | i :: rest =>
    if pyLower (propType i) = "category" then segsAux propType propLabel logged (propLabel i) [] rest
    else segments rest

/-- A category block renders exactly when it has at least one row. -/
def renderSeg (seg : String × List String) : String :=
  if seg.2 = [] then "" else mkCs row seg.1 seg.2

/-- The notes form the claim describes: category label line followed by its
rows, emitted only for categories with at least one logged row. -/
def renderSegs (segs : List (String × List String)) : String :=
  strJoin (segs.map (renderSeg row))

end GenerateNotes

theorem strEmpty_append (s : String) : "" ++ s = s := by
  cases s; rfl

theorem strJoin_append (a b : List String) :
    strJoin (a ++ b) = strJoin a ++ strJoin b := by
  induction a with
  | nil => simp [strJoin, strEmpty_append]
  | cons x a ih => simp [strJoin, ih, strAppend_assoc]

theorem odUpsert_ne_nil (k v : String) : ∀ l : List (String × String),
    odUpsert k v l ≠ []
  | [] => by simp [odUpsert]
  | p :: rest => by
    unfold odUpsert
    by_cases h : p.1 = k <;> simp [h]

theorem mkCs_snoc (row : String → String) (c j : String) (ks : List String) :
    mkCs row c ks ++ "  " ++ row j ++ "\n" = mkCs row c (ks ++ [j]) := by
  simp [mkCs, strJoin_append, strJoin, strAppend_assoc, strAppend_empty]

theorem mkCs_nil (row : String → String) (c : String) :
    c ++ "\n" = mkCs row c [] := by
  simp [mkCs, strJoin, strAppend_empty]

theorem foldl_notesStep_from_category (propType propLabel row : String → String)
    (logged : List String) :
    ∀ (rest : List String) (c : String) (ks : List String)
      (cd : List (String × String)) (notes : String),
      (cd = [] ↔ ks = []) →
      settingsFlush (rest.foldl (notesStep propType propLabel row logged)
        (notes, some c, mkCs row c ks, cd)) =
        notes ++ renderSegs row (segsAux propType propLabel logged c ks rest) := by
  intro rest
  induction rest with
  | nil =>
    intro c ks cd notes hinv
    simp only [List.foldl_nil, settingsFlush, renderSegs, segsAux, List.map_cons,
      List.map_nil, strJoin]
    by_cases hks : ks = []
    · rw [if_neg (by simp [hinv, hks])]
      subst hks
      simp [renderSeg, strAppend_empty]
    · rw [if_pos (by simp [hinv, hks])]
      simp [renderSeg, hks, strAppend_empty]
  | cons j rest ih =>
    intro c ks cd notes hinv
    rw [List.foldl_cons]
    by_cases hcat : pyLower (propType j) = "category"
    · have hstep : notesStep propType propLabel row logged
          (notes, some c, mkCs row c ks, cd) j =
          ((if cd ≠ [] then notes ++ mkCs row c ks else notes), some (propLabel j),
            propLabel j ++ "\n", []) := by
        simp [notesStep, hcat]
      rw [hstep, mkCs_nil row (propLabel j),
        ih (propLabel j) [] [] _ (by simp),
        show segsAux propType propLabel logged c ks (j :: rest) =
          (c, ks) :: segsAux propType propLabel logged (propLabel j) [] rest from by
            simp [segsAux, hcat]]
      simp only [renderSegs, List.map_cons, strJoin]
      by_cases hks : ks = []
      · rw [if_neg (by simp [hinv, hks])]
        subst hks
        simp [renderSeg, strEmpty_append]
      · rw [if_pos (by simp [hinv, hks])]
        simp [renderSeg, hks, strAppend_assoc]
    · by_cases hlog : j ∈ logged
      · have hstep : notesStep propType propLabel row logged
            (notes, some c, mkCs row c ks, cd) j =
            (notes, some c, mkCs row c ks ++ "  " ++ row j ++ "\n",
              odUpsert j (row j) cd) := by
          simp [notesStep, hcat, hlog]
        rw [hstep, mkCs_snoc,
          ih c (ks ++ [j]) _ notes (by simp [odUpsert_ne_nil]),
          show segsAux propType propLabel logged c ks (j :: rest) =
            segsAux propType propLabel logged c (ks ++ [j]) rest from by
              simp [segsAux, hcat, hlog]]
      · have hstep : notesStep propType propLabel row logged
            (notes, some c, mkCs row c ks, cd) j =
            (notes, some c, mkCs row c ks, cd) := by
          simp [notesStep, hcat, hlog]
        rw [hstep, ih c ks cd notes hinv,
          show segsAux propType propLabel logged c ks (j :: rest) =
            segsAux propType propLabel logged c ks rest from by
              simp [segsAux, hcat, hlog]]

/-- C7: every logged (non-category) model row produces a setting row and no
other row does, rows are grouped under their category's label in model
order, and a category label line is emitted exactly when the category has at
least one logged row — stated as equality of the settings section of
`_generateNotes` with the segment rendering, assuming the model's rows begin
with a category row (as Cura's setting-definitions model guarantees). -/
theorem settingsNotes_eq_renderSegs (propType propLabel row : String → String)
    (logged : List String) (items : List String)
    (hhead : ∀ i ∈ items.take 1, pyLower (propType i) = "category") :
    settingsNotes propType propLabel row logged items =
      renderSegs row (segments propType propLabel logged items) := by
  cases items with
  | nil => rfl
  | cons i rest =>
    have hcat : pyLower (propType i) = "category" := hhead i (by simp)
    unfold settingsNotes
    rw [List.foldl_cons,
      show notesStep propType propLabel row logged ("", none, "", []) i =
        ("", some (propLabel i), propLabel i ++ "\n", []) from by
          simp [notesStep, hcat],
      mkCs_nil row (propLabel i),
      foldl_notesStep_from_category propType propLabel row logged rest
        (propLabel i) [] [] "" (by simp),
      show segments propType propLabel logged (i :: rest) =
        segsAux propType propLabel logged (propLabel i) [] rest from by
          simp [segments, hcat],
      strEmpty_append]

/-- Witness for C7 on a concrete three-category model. -/
theorem settingsNotes_eq_renderSegs_witness :
    settingsNotes
      (fun s => if s = "catA" ∨ s = "catB" then "category" else "float")
      (fun s => s) (fun s => s ++ ": 1") ["s1", "s3"]
      ["catA", "s1", "s2", "catB", "s4"] =
    renderSegs (fun s => s ++ ": 1")
      (segments
        (fun s => if s = "catA" ∨ s = "catB" then "category" else "float")
        (fun s => s) ["s1", "s3"]
        ["catA", "s1", "s2", "catB", "s4"]) :=
  settingsNotes_eq_renderSegs _ _ _ _ _
    (by intro i hi; simp at hi; rw [hi]; decide)

/-! ### JSON values, serialization and HTTP plumbing
(`_sendToApi`, `_onRequestFinished`, `_openBrowser`) -/

/-- A Python exception, abstracted to its message. -/
inductive Exc where
  | exc (msg : String)

/-- Association-list lookup, the shallow embedding of `dict[key]` access
order-independently (Python dicts have unique keys). -/
def assocLookup {α : Type} : List (String × α) → String → Option α
  | [], _ => none
  | p :: rest, k => if p.1 = k then some p.2 else assocLookup rest k

/-- A JSON value.  Numeric leaves are exact rationals (Python floats are
binary doubles; no claim depends on the numeric leaf rendering). -/
inductive Json where
  | null
  | b (v : Bool)
  | num (v : ℚ)
  | str (s : String)
  | arr (l : List Json)
  | obj (o : List (String × Json))

/-- Python's `str` on an integer. -/
def pyIntStr (i : ℤ) : String :=
  if i < 0 then "-" ++ pyStr i.natAbs else pyStr i.natAbs

/-- Lowercase hex digit. -/
def hexDigitLower (n : ℕ) : Char := "0123456789abcdef".data.getD n '0'

/-- Uppercase hex digit. -/
def hexDigitUpper (n : ℕ) : Char := "0123456789ABCDEF".data.getD n '0'

/-- One `\uXXXX` escape. -/
def uEscape16 (n : ℕ) : List Char :=
  ['\\', 'u', hexDigitLower (n / 4096 % 16), hexDigitLower (n / 256 % 16),
    hexDigitLower (n / 16 % 16), hexDigitLower (n % 16)]

/-- `json.dumps` escape of one character (`ensure_ascii=True`: non-ASCII
becomes `\uXXXX`, astral code points a surrogate pair). -/
def jsonEscapeChar (c : Char) : List Char :=
  if c = '"' then ['\\', '"']
  else if c = '\\' then ['\\', '\\']
  else if c = '\n' then ['\\', 'n']
  else if c = '\t' then ['\\', 't']
  else if c = '\r' then ['\\', 'r']
  else if c = '\x08' then ['\\', 'b']
  else if c = '\x0c' then ['\\', 'f']
  else if c.toNat < 0x20 ∨ 0x7e < c.toNat then
    if c.toNat < 0x10000 then uEscape16 c.toNat
    else uEscape16 (0xD800 + (c.toNat - 0x10000) / 1024) ++
      uEscape16 (0xDC00 + (c.toNat - 0x10000) % 1024)
  else [c]

/-- A `json.dumps` string literal. -/
def jsonEscape (s : String) : String :=
  ⟨'"' :: ((s.data.map jsonEscapeChar).flatten ++ ['"'])⟩

/-- The rendering of a numeric leaf: exact (integers as integers, other
rationals as a fraction).  Python renders its binary doubles via `repr`;
no claim constrains this leaf rendering. -/
def jsonNum (v : ℚ) : String :=
  if v.den = 1 then pyIntStr v.num else pyIntStr v.num ++ "/" ++ pyStr v.den

mutual

/-- `json.dumps` with its default separators `", "` and `": "`. -/
def jsonDumps : Json → String
  | .null => "null"
  | .b true => "true"
  | .b false => "false"
  | .num v => jsonNum v
  | .str s => jsonEscape s
  | .arr l => "[" ++ dumpsArr l ++ "]"
  | .obj o => "\x7b" ++ dumpsObj o ++ "\x7d"

def dumpsArr : List Json → String
  | [] => ""
  | [x] => jsonDumps x
  | x :: y :: xs => jsonDumps x ++ ", " ++ dumpsArr (y :: xs)

def dumpsObj : List (String × Json) → String
  | [] => ""
  | [(k, v)] => jsonEscape k ++ ": " ++ jsonDumps v
  | (k, v) :: p :: xs => jsonEscape k ++ ": " ++ jsonDumps v ++ ", " ++ dumpsObj (p :: xs)

end

/-- UTF-8 bytes of one code point. -/
def utf8Bytes (n : ℕ) : List ℕ :=
  if n < 0x80 then [n]
  else if n < 0x800 then [0xC0 + n / 64, 0x80 + n % 64]
  else if n < 0x10000 then [0xE0 + n / 4096, 0x80 + n / 64 % 64, 0x80 + n % 64]
  else [0xF0 + n / 262144, 0x80 + n / 4096 % 64, 0x80 + n / 64 % 64, 0x80 + n % 64]

/-- `.encode("utf-8")`. -/
def utf8Encode (s : String) : List ℕ :=
  (s.data.map (fun c => utf8Bytes c.toNat)).flatten

/-- `urllib.parse.quote_plus` on one character: ASCII letters, digits and
`'_'`, `'.'`, `'-'`, `'~'` stay, space becomes `'+'`, everything else is
percent-encoded byte-wise (uppercase hex). -/
def quotePlusChar (c : Char) : List Char :=
  if c.isAlpha || c.isDigit || c = '_' || c = '.' || c = '-' || c = '~' then [c]
  else if c = ' ' then ['+']
  else ((utf8Bytes c.toNat).map
    (fun b => ['%', hexDigitUpper (b / 16), hexDigitUpper (b % 16)])).flatten

/-- `urllib.parse.quote_plus`. -/
def quotePlus (s : String) : String := ⟨(s.data.map quotePlusChar).flatten⟩

/-- Join with a separator (`"&".join`-style). -/
def joinSep (sep : String) : List String → String
  | [] => ""
  | [x] => x
  | x :: y :: xs => x ++ sep ++ joinSep sep (y :: xs)

/-- `urllib.parse.urlencode(data)` over the dict's insertion-ordered pairs. -/
def urlencode (pairs : List (String × String)) : String :=
  joinSep "&" (pairs.map (fun p => quotePlus p.1 ++ "=" ++ quotePlus p.2))

/-- The fixed API endpoint `PrintLogUploader.api_url`. -/
def api_url : String := "https://api.3dprintlog.com/api/Cura/settings"

/-- The fixed form URL `PrintLogUploader.new_print_url`. -/
def new_print_url : String := "https://www.3dprintlog.com/prints/new/cura"

/-- One outbound HTTP POST issued through the host's request manager. -/
structure Request where
  url : String
  body : List ℕ

/-- Observable effects of the send pipeline. -/
inductive Event where
  | posted (r : Request)
  | logged (m : String)
  | loggedException (m : String)

/-! ### `_generateSnapshot` (PrintLogUploader.py lines 380–424) and the
snapshot entry of the settings dictionary (lines 208–217) -/

/-- A host-rendered thumbnail, abstracted to its PNG chunk bytes. -/
structure Image where
  chunks : List ℕ

/-- The 8-byte PNG file signature. -/
def pngSignature : List ℕ := [137, 80, 78, 71, 13, 10, 26, 10]

/-- `snapshot.save(thumbnail_buffer, "PNG")`: the buffer receives the PNG
serialization — the PNG signature followed by the image's chunk bytes. -/
def savePNG (img : Image) : List ℕ := pngSignature ++ img.chunks

/-- The base64 alphabet. -/
def base64Char (n : ℕ) : Char :=
  "ABCDEFGHIJKLMNOPQRSTUVWXYZabcdefghijklmnopqrstuvwxyz0123456789+/".data.getD n 'A'

/-- RFC 4648 base64 of a byte list (`QByteArray.toBase64`). -/
def base64Chunks : List ℕ → List Char
  | [] => []
  | [a] => [base64Char (a / 4), base64Char (a % 4 * 16), '=', '=']
  | [a, b] => [base64Char (a / 4), base64Char (a % 4 * 16 + b / 16),
      base64Char (b % 16 * 4), '=']
  | a :: b :: c :: rest =>
    base64Char (a / 4) :: base64Char (a % 4 * 16 + b / 16) ::
      base64Char (b % 16 * 4 + c / 64) :: base64Char (c % 64) :: base64Chunks rest

def base64 (bytes : List ℕ) : String := ⟨base64Chunks bytes⟩

/-- `_generateSnapshot()`.  `backendSnap` is the outcome of
`backend.getLatestSnapshot()` (`.ok none` both when the backend lacks the
method and when it returns `None`); `fallbackSnap` is the outcome of
`Snapshot.snapshot(width=300, height=300)`.  The whole body is wrapped in
`try/except: return None`, and the fallback has its own
`except: return None`, so every failure yields `none`. -/
def generateSnapshot (backendSnap fallbackSnap : Except Exc (Option Image)) :
    Option String :=
  match backendSnap with
  | .error _ => none
  | .ok bs =>
    match (match bs with
           | some s => some s
           | none =>
             match fallbackSnap with
             | .error _ => none
             | .ok fs => fs : Option Image) with
    | some s => some (base64 (savePNG s))
    | none => none

/-- The `settings["snapshot"]` assignment of `_sendTo3DPrintLog`: present
only when the `include_snapshot` preference holds and the generated value is
truthy (`if snapshot:`). -/
def snapshotEntry (includeSnapshot : Bool) (gen : Option String) :
    List (String × Json) :=
  if includeSnapshot then
    match gen with
    | some s => if pyTruthyStr s then [("snapshot", Json.str s)] else []
    | none => []
  else []

theorem base64Chunks_ne_nil (a : ℕ) (rest : List ℕ) :
    base64Chunks (a :: rest) ≠ [] := by
  match rest with
  | [] => simp [base64Chunks]
  | [b] => simp [base64Chunks]
  | b :: c :: t => simp [base64Chunks]

theorem generateSnapshot_shape {bs fb : Except Exc (Option Image)} {s : String}
    (h : generateSnapshot bs fb = some s) : ∃ img, s = base64 (savePNG img) := by
  unfold generateSnapshot at h
  match bs with
  | .error _ => simp at h
  | .ok (some img) =>
    simp at h
    exact ⟨img, h.symm⟩
  | .ok none =>
    match fb with
    | .error _ => simp at h
    | .ok none => simp at h
    | .ok (some img) =>
      simp at h
      exact ⟨img, h.symm⟩

theorem generateSnapshot_truthy {bs fb : Except Exc (Option Image)} {s : String}
    (h : generateSnapshot bs fb = some s) : pyTruthyStr s = true := by
  obtain ⟨img, rfl⟩ := generateSnapshot_shape h
  simp only [pyTruthyStr, base64, savePNG, pngSignature, decide_eq_true_iff]
  intro hc
  have : base64Chunks (137 :: ([80, 78, 71, 13, 10, 26, 10] ++ img.chunks)) = [] :=
    congrArg String.data hc
  exact base64Chunks_ne_nil _ _ this

/-- C5: the `"snapshot"` key is present in the submitted settings exactly
when the `include_snapshot` preference is on and `_generateSnapshot`
produced an image; its value is then the base64 of the image saved as PNG;
and `_generateSnapshot` returns `None` (it never raises) whenever the
backend call raises or the fallback capture raises or yields nothing. -/
theorem snapshotEntry_c5 (inc : Bool) (bs fb : Except Exc (Option Image)) (e : Exc) :
    (snapshotEntry inc (generateSnapshot bs fb) ≠ [] ↔
      (inc = true ∧ (generateSnapshot bs fb).isSome = true)) ∧
    (∀ s, generateSnapshot bs fb = some s →
      (snapshotEntry true (generateSnapshot bs fb) = [("snapshot", Json.str s)] ∧
        ∃ img, s = base64 (savePNG img))) ∧
    generateSnapshot (.error e) fb = none ∧
    generateSnapshot (.ok none) (.error e) = none ∧
    generateSnapshot (.ok none) (.ok none) = none := by
  refine ⟨?_, ?_, rfl, rfl, rfl⟩
  · constructor
    · intro hne
      match hinc : inc with
      | false => simp [snapshotEntry, hinc] at hne
      | true =>
        refine ⟨rfl, ?_⟩
        match hgen : generateSnapshot bs fb with
        | none => simp [snapshotEntry, hgen] at hne
        | some s => simp
    · rintro ⟨rfl, hsome⟩
      match hgen : generateSnapshot bs fb with
      | none => simp [hgen] at hsome
      | some s =>
        simp [snapshotEntry, generateSnapshot_truthy hgen]
  · intro s hs
    exact ⟨by simp [snapshotEntry, hs, generateSnapshot_truthy hs],
      generateSnapshot_shape hs⟩

/-- Witness for C5 at a one-pixel image from the backend. -/
theorem snapshotEntry_c5_witness :
    (snapshotEntry true (generateSnapshot (.ok (some ⟨[0]⟩)) (.ok none)) ≠ [] ↔
      (true = true ∧
        (generateSnapshot (.ok (some ⟨[0]⟩)) (.ok none)).isSome = true)) ∧
    (∀ s, generateSnapshot (.ok (some ⟨[0]⟩)) (.ok none) = some s →
      (snapshotEntry true (generateSnapshot (.ok (some ⟨[0]⟩)) (.ok none)) =
          [("snapshot", Json.str s)] ∧
        ∃ img, s = base64 (savePNG img))) ∧
    generateSnapshot (.error (.exc "boom")) (.ok none) = none ∧
    generateSnapshot (.ok none) (.error (.exc "boom")) = none ∧
    generateSnapshot (.ok none) (.ok none) = none :=
  snapshotEntry_c5 true (.ok (some ⟨[0]⟩)) (.ok none) (.exc "boom")

/-! ### `_onRequestFinished` (lines 317–343) and `_openBrowser` (349–377) -/

/-- The network reply as the handler reads it: the HTTP status attribute
(`None` when absent) and the outcome of `json.loads` on the body — an object
with string values (the API returns `{"newSettingId": "<guid>"}`), or
`.error` when the body is not valid JSON. -/
structure Reply where
  statusCode : Option ℤ
  parsedBody : Except Exc (List (String × String))

/-- What the handler does. -/
inductive RFAction where
  | openBrowser (url : String)
  | logError (code : Option ℤ)

/-- `_openBrowser(data)`: the URL handed to `webbrowser.open` — the fixed
new-print URL with the urlencoded query. -/
def openBrowserUrl (cv pv settingId : String) : String :=
  new_print_url ++ "?" ++
    urlencode [("cura_version", cv), ("plugin_version", pv), ("settingId", settingId)]

/-- `_onRequestFinished(reply)`: on 200 parse the body, read `newSettingId`
and open the browser; otherwise log the error.  Parse and key errors on the
200 path are uncaught and propagate (`.error`). -/
def onRequestFinished (cv pv : String) (reply : Reply) : Except Exc RFAction :=
  if reply.statusCode = some 200 then
    match reply.parsedBody with
    | .error e => .error e
    | .ok results =>
      match assocLookup results "newSettingId" with
      | some g => .ok (.openBrowser (openBrowserUrl cv pv g))
      | none => .error (.exc "KeyError")
  else .ok (.logError reply.statusCode)

/-- C2: after the POST completes, a browser is opened exactly on HTTP 200
(with a parseable body): the URL is the fixed new-print URL with query
parameters `cura_version`, `plugin_version` and `settingId`, the last being
the `newSettingId` token of the JSON response; on every non-200 status the
handler only logs the error and opens no browser. -/
theorem onRequestFinished_c2 (cv pv : String) (reply : Reply)
    (results : List (String × String)) (g : String)
    (h200 : reply.statusCode = some 200)
    (hbody : reply.parsedBody = .ok results)
    (hg : assocLookup results "newSettingId" = some g) :
    onRequestFinished cv pv reply =
      .ok (.openBrowser (new_print_url ++ "?" ++ urlencode
        [("cura_version", cv), ("plugin_version", pv), ("settingId", g)])) ∧
    (∀ reply' : Reply, reply'.statusCode ≠ some 200 →
      onRequestFinished cv pv reply' = .ok (.logError reply'.statusCode)) := by
  constructor
  · unfold onRequestFinished
    rw [if_pos h200, hbody]
    simp only [hg]
    rfl
  · intro reply' hne
    unfold onRequestFinished
    rw [if_neg hne]

/-- Witness for C2 at a 200 reply carrying a GUID token. -/
theorem onRequestFinished_c2_witness :
    onRequestFinished "5.7.0" "1.3.1"
        ⟨some 200, .ok [("newSettingId", "42ab-7")]⟩ =
      .ok (.openBrowser (new_print_url ++ "?" ++ urlencode
        [("cura_version", "5.7.0"), ("plugin_version", "1.3.1"),
          ("settingId", "42ab-7")])) ∧
    (∀ reply' : Reply, reply'.statusCode ≠ some 200 →
      onRequestFinished "5.7.0" "1.3.1" reply' = .ok (.logError reply'.statusCode)) :=
  onRequestFinished_c2 "5.7.0" "1.3.1" ⟨some 200, .ok [("newSettingId", "42ab-7")]⟩
    [("newSettingId", "42ab-7")] "42ab-7" rfl rfl (by decide)

/-! ### `_sendToApi` (lines 307–315), `_sendTo3DPrintLog` (189–229),
`_onWriteStarted` (170–187) -/

/-- `_sendToApi(data)`: one POST of the UTF-8 encoded JSON to the fixed API
URL. -/
def sendToApi (data : Json) : List Request :=
  [⟨api_url, utf8Encode (jsonDumps data)⟩]

/-- The `data` dictionary of `_sendTo3DPrintLog`: `curaVersion`,
`pluginVersion`, then the assembled `settings` dictionary. -/
def assembleData (cv pv : String) (settings : List (String × Json)) : Json :=
  .obj [("curaVersion", .str cv), ("pluginVersion", .str pv),
    ("settings", .obj settings)]

/-- `_sendTo3DPrintLog()`: logs, assembles the settings (an `Except`
capturing any exception raised while collecting notes, metadata, model info
or snapshot), posts once on success, and catches-and-logs any exception. -/
def sendTo3DPrintLog (cv pv : String)
    (assembly : Except Exc (List (String × Json))) : List Event :=
  match assembly with
  | .error _ =>
    [.logged "Generating Test Log",
      .loggedException
        "Exception raised while sending print info in _sendTo3DPrintLog."]
  | .ok settings =>
    .logged "Generating Test Log" ::
      (sendToApi (assembleData cv pv settings)).map .posted

/-- The unprotected body of `_onWriteStarted`: the prompt decision
(`_shouldSendTo3DPrintLog`, itself able to raise) followed by the send. -/
def bodyOnWriteStarted (shouldSend : Except Exc Bool) (cv pv : String)
    (assembly : Except Exc (List (String × Json))) : Except Exc (List Event) :=
  match shouldSend with
  | .error e => .error e
  | .ok false => .ok [.logged "User denied the prompt"]
  | .ok true => .ok (sendTo3DPrintLog cv pv assembly)

/-- `_onWriteStarted(output_device)`: the body inside
`try/except Exception: Logger.logException(...)`. -/
def onWriteStarted (shouldSend : Except Exc Bool) (cv pv : String)
    (assembly : Except Exc (List (String × Json))) : List Event :=
  match bodyOnWriteStarted shouldSend cv pv assembly with
  | .ok evs => evs
  | .error _ => [.loggedException "Exception raised in _onWriteStarted"]

/-- C4: each successful invocation of the send operation issues exactly one
POST, to the fixed URL `https://api.3dprintlog.com/api/Cura/settings`, whose
body is exactly the UTF-8 encoding of the JSON serialization of the
assembled data dictionary (`curaVersion`, `pluginVersion`, nested
`settings`). -/
theorem sendTo3DPrintLog_single_post (cv pv : String)
    (settings : List (String × Json)) :
    (sendTo3DPrintLog cv pv (.ok settings)).filterMap
        (fun e => match e with | .posted r => some r | _ => none) =
      [⟨api_url, utf8Encode (jsonDumps (assembleData cv pv settings))⟩] ∧
    api_url = "https://api.3dprintlog.com/api/Cura/settings" := by
  constructor
  · simp [sendTo3DPrintLog, sendToApi, List.filterMap]
  · rfl

/-- C3: every exception raised inside the write-triggered send pipeline is
caught and logged and never propagates: an exception in the prompt step is
logged by `_onWriteStarted`'s handler, an exception in payload assembly is
logged by `_sendTo3DPrintLog`'s own handler, and in either case no POST is
issued — `onWriteStarted` is a total function into plain event lists, so the
host's save/print flow observes no error. -/
theorem onWriteStarted_catches (cv pv : String) (e : Exc)
    (shouldSend : Except Exc Bool)
    (assembly : Except Exc (List (String × Json))) :
    onWriteStarted (.error e) cv pv assembly =
      [.loggedException "Exception raised in _onWriteStarted"] ∧
    onWriteStarted (.ok true) cv pv (.error e) =
      [.logged "Generating Test Log",
        .loggedException
          "Exception raised while sending print info in _sendTo3DPrintLog."] ∧
    (∀ r : Request, Event.posted r ∈ onWriteStarted shouldSend cv pv assembly →
      shouldSend = .ok true ∧ ∃ s, assembly = .ok s) := by
  refine ⟨rfl, rfl, ?_⟩
  intro r hr
  match shouldSend with
  | .error e' => simp [onWriteStarted, bodyOnWriteStarted] at hr
  | .ok false => simp [onWriteStarted, bodyOnWriteStarted] at hr
  | .ok true =>
    refine ⟨rfl, ?_⟩
    match assembly with
    | .error e' =>
      simp [onWriteStarted, bodyOnWriteStarted, sendTo3DPrintLog] at hr
    | .ok s => exact ⟨s, rfl⟩

/-- Witness for C3 at concrete exception and assembly values. -/
theorem onWriteStarted_catches_witness :
    onWriteStarted (.error (.exc "dialog failed")) "5.7.0" "1.3.1" (.ok []) =
      [.loggedException "Exception raised in _onWriteStarted"] ∧
    onWriteStarted (.ok true) "5.7.0" "1.3.1" (.error (.exc "dialog failed")) =
      [.logged "Generating Test Log",
        .loggedException
          "Exception raised while sending print info in _sendTo3DPrintLog."] ∧
    (∀ r : Request, Event.posted r ∈ onWriteStarted (.ok true) "5.7.0" "1.3.1" (.ok []) →
      (.ok true : Except Exc Bool) = .ok true ∧
        ∃ s, (.ok [] : Except Exc (List (String × Json))) = .ok s) :=
  onWriteStarted_catches "5.7.0" "1.3.1" (.exc "dialog failed") (.ok true) (.ok [])

/-! ### `_getModelInformation` (lines 448–475) and `_getObjectNotes`
(lines 674–698) -/

/-- A bounding box as the code reads it: `center.x`, `center.z`, `bottom`,
`width`, `depth`, `height`. -/
structure BBox where
  centerX : ℚ
  centerZ : ℚ
  bottom : ℚ
  width : ℚ
  depth : ℚ
  height : ℚ

/-- A scene node as the iteration sees it. -/
structure SceneNode where
  sliceable : Bool
  name : String
  boundingBox : Option BBox

/-- A value of a model dictionary. -/
inductive MVal where
  | s (v : String)
  | q (v : ℚ)
  | dict (d : List (String × MVal))

/-- The `"bounding_box"` sub-dictionary. -/
def bboxDict (b : BBox) : MVal :=
  .dict [("translation", .dict [("x", .q b.centerX), ("y", .q b.centerZ),
      ("z", .q b.bottom)]),
    ("scale", .dict [("x", .q b.width), ("y", .q b.depth), ("z", .q b.height)])]

/-- `_getModelInformation()["models"]`: for every sliceable node, a dict
whose `"name"` is set first; nodes without a bounding box are dropped by the
`continue` before the dict is appended, so every appended dict also has
`"bounding_box"`. -/
def getModelInformation (nodes : List SceneNode) : List (List (String × MVal)) :=
  nodes.filterMap (fun n =>
    if n.sliceable then
      match n.boundingBox with
      | none => none
      | some b => some [("name", .s n.name), ("bounding_box", bboxDict b)]
    else none)

/-- `model[key]` on a model dictionary value: `KeyError` on a missing key,
`TypeError` when indexing a non-dict. -/
def dictGet (m : MVal) (k : String) : Except String MVal :=
  match m with
  | .dict d =>
    match assocLookup d k with
    | some v => .ok v
    | none => .error "KeyError"
  | _ => .error "TypeError"

def asStr : MVal → Except String String
  | .s v => .ok v
  | _ => .error "TypeError"

def asNum : MVal → Except String ℚ
  | .q v => .ok v
  | _ => .error "TypeError"

/-- The body of `_getObjectNotes`'s loop for one model dictionary. -/
def objectNoteFor (model : List (String × MVal)) : Except String String := do
  let name ← asStr (← dictGet (.dict model) "name")
  let bb ← dictGet (.dict model) "bounding_box"
  let tr ← dictGet bb "translation"
  let tx ← asNum (← dictGet tr "x")
  let ty ← asNum (← dictGet tr "y")
  let tz ← asNum (← dictGet tr "z")
  let sc ← dictGet bb "scale"
  let sx ← asNum (← dictGet sc "x")
  let sy ← asNum (← dictGet sc "y")
  let sz ← asNum (← dictGet sc "z")
  pure ("  " ++ name ++ "\n" ++
    "    Move: " ++ formatNumber tx 4 ++ " x, " ++ formatNumber ty 4 ++ " y, " ++
      formatNumber tz 4 ++ " z\n" ++
    "    Scale: " ++ formatNumber sx 4 ++ " x, " ++ formatNumber sy 4 ++ " y, " ++
      formatNumber sz 4 ++ " z\n")

/-- `_getObjectNotes()`. -/
def getObjectNotes (nodes : List SceneNode) : Except String String := do
  let models := getModelInformation nodes
  let parts ← models.mapM objectNoteFor
  pure ((if models.isEmpty then "" else "Objects:\n") ++ strJoin parts ++
    (if models.isEmpty then "" else "\n\n"))

theorem mem_getModelInformation {nodes : List SceneNode}
    {m : List (String × MVal)} (hm : m ∈ getModelInformation nodes) :
    ∃ n b, n ∈ nodes ∧ n.boundingBox = some b ∧
      m = [("name", MVal.s n.name), ("bounding_box", bboxDict b)] := by
  obtain ⟨n, hn, heq⟩ := List.mem_filterMap.mp hm
  match hs : n.sliceable with
  | false => rw [hs] at heq; simp at heq
  | true =>
    rw [hs] at heq
    match hb : n.boundingBox with
    | none => rw [hb] at heq; simp at heq
    | some b =>
      rw [hb] at heq
      simp at heq
      exact ⟨n, b, hn, hb, heq.symm⟩

theorem objectNoteFor_canonical (name : String) (b : BBox) :
    objectNoteFor [("name", MVal.s name), ("bounding_box", bboxDict b)] =
      .ok ("  " ++ name ++ "\n" ++
        "    Move: " ++ formatNumber b.centerX 4 ++ " x, " ++
          formatNumber b.centerZ 4 ++ " y, " ++ formatNumber b.bottom 4 ++ " z\n" ++
        "    Scale: " ++ formatNumber b.width 4 ++ " x, " ++
          formatNumber b.depth 4 ++ " y, " ++ formatNumber b.height 4 ++ " z\n") :=
  rfl

theorem mapM_ok_of_forall_ok {α : Type} (f : α → Except String String) :
    ∀ l : List α, (∀ x ∈ l, ∃ s, f x = .ok s) → ∃ out, l.mapM f = .ok out
  | [], _ => ⟨[], rfl⟩
  | x :: l, h => by
    obtain ⟨s, hs⟩ := h x (List.mem_cons_self _ _)
    obtain ⟨out, hout⟩ := mapM_ok_of_forall_ok f l
      (fun y hy => h y (List.mem_cons_of_mem _ hy))
    exact ⟨s :: out, by rw [List.mapM_cons, hs, hout]; rfl⟩

/-- C10: every entry of the `"models"` list has both a `"name"` and a
`"bounding_box"` key (sliceable nodes without a bounding box are omitted
entirely), so `_getObjectNotes` reads every listed model's translation and
scale without a missing-key error: it never returns a `KeyError`. -/
theorem getModelInformation_c10 (nodes : List SceneNode) :
    (∀ m ∈ getModelInformation nodes,
      (assocLookup m "name").isSome = true ∧
        (assocLookup m "bounding_box").isSome = true) ∧
    ∃ s, getObjectNotes nodes = .ok s := by
  constructor
  · intro m hm
    obtain ⟨n, b, _, _, rfl⟩ := mem_getModelInformation hm
    constructor <;> rfl
  · obtain ⟨out, hout⟩ := mapM_ok_of_forall_ok objectNoteFor
      (getModelInformation nodes) (fun m hm => by
        obtain ⟨n, b, _, _, rfl⟩ := mem_getModelInformation hm
        exact ⟨_, objectNoteFor_canonical n.name b⟩)
    simp only [getObjectNotes]
    rw [show (getModelInformation nodes).mapM objectNoteFor = .ok out from hout]
    exact ⟨_, rfl⟩

end PrintLog
